import Mathlib

/-!
Verification of the badminton match tracker (src/badminton_main.py).

Python strings are modelled as lists of code points (`PyStr := List Nat`),
Python dicts as insertion-ordered association lists, and each operation of
the source file as a Lean function over an explicit `DailyState` record.
The Streamlit presentation layer is external; the clock (`datetime.now`)
is passed in as an explicit parameter.
-/

/-- A Python string, modelled as its list of Unicode code points. -/
abbrev PyStr := List Nat

/-- Converts a Lean string literal to the `PyStr` model (for concrete inputs). -/
def pystr (s : String) : PyStr := s.data.map Char.toNat

/-- Models Python `str.isspace` membership for the characters removed by
`str.strip()`: space, tab, newline, carriage return, vertical tab, form feed. -/
def isPySpace (c : Nat) : Bool :=
  c = 32 || c = 9 || c = 10 || c = 13 || c = 11 || c = 12

/-- Models `str.upper()` on one code point (ASCII range, as used by the app). -/
def upperChar (c : Nat) : Nat :=
  if 97 ≤ c ∧ c ≤ 122 then c - 32 else c

/-- Models Python `str.strip()`: remove leading and trailing whitespace. -/
def pyStrip (s : PyStr) : PyStr :=
  List.rdropWhile isPySpace (List.dropWhile isPySpace s)

/-- Models Python `str.upper()`. -/
def pyUpper (s : PyStr) : PyStr := s.map upperChar

/-- `normalize_name(name): return name.strip().upper()` (badminton_main.py:36). -/
def normalize_name (name : PyStr) : PyStr := pyUpper (pyStrip name)

/-- Python dict lookup `d.get(k)` on an insertion-ordered association list. -/
def dictGet (d : List (PyStr × α)) (k : PyStr) : Option α :=
  match d with
  | [] => none
  | (k', v) :: rest => if k' = k then some v else dictGet rest k

/-- Python `d[k] = v`: update in place if the key exists, else append. -/
def dictSet (d : List (PyStr × α)) (k : PyStr) (v : α) : List (PyStr × α) :=
  match d with
  | [] => [(k, v)]
  | (k', v') :: rest => if k' = k then (k, v) :: rest else (k', v') :: dictSet rest k v

/-- Python `d.pop(k, None)`: remove the entry for `k` if present. -/
def dictPop (d : List (PyStr × α)) (k : PyStr) : List (PyStr × α) :=
  match d with
  | [] => []
  | (k', v') :: rest => if k' = k then rest else (k', v') :: dictPop rest k

/-- Python `k in d`. -/
def dictContains (d : List (PyStr × α)) (k : PyStr) : Bool :=
  (dictGet d k).isSome

/-- One entry of the data's match list (badminton_main.py:54). -/
structure MatchRecord where
  id : Nat
  players : List PyStr
  time : PyStr
  remark : PyStr
  deriving Repr, DecidableEq

/-- The persisted snapshot `data` (badminton_main.py:19): stamped date,
`player_stats` (per-player match counters, also the roster the UI lists),
`name_map` (normalized key → display name), and the day's match list. -/
structure DailyState where
  date : PyStr
  player_stats : List (PyStr × Nat)
  name_map : List (PyStr × PyStr)
  matches' : List MatchRecord
  deriving Repr, DecidableEq

/-- The date-rollover step of `load_data` (badminton_main.py:22-26): when the
stored date differs from today it re-stamps the date, empties `player_stats`
and empties `matches'`; `name_map` is untouched. -/
def load_rollover (todayStr : PyStr) (d : DailyState) : DailyState :=
  if d.date ≠ todayStr then
    { d with date := todayStr, player_stats := [], matches' := [] }
  else d

/-- `register_player` (badminton_main.py:39-48), minus the save/UI side
effects; returns the updated state and the registered key. -/
def register_player (st : DailyState) (name : PyStr) : DailyState × PyStr :=
  let norm := normalize_name name
  let upper_name := norm
  let st1 :=
    if ¬ dictContains st.name_map norm then
      { st with name_map := dictSet st.name_map norm upper_name }
    else st
  let st2 :=
    if ¬ dictContains st1.player_stats upper_name then
      { st1 with player_stats := dictSet st1.player_stats upper_name 0 }
    else st1
  (st2, upper_name)

/-- `add_match(players, remark)` (badminton_main.py:50-58), with the clock's
`datetime.now(IST).strftime("%H:%M")` passed in as `timestamp`. -/
def add_match (st : DailyState) (players : List PyStr) (remark : PyStr)
    (timestamp : PyStr) : DailyState :=
  let match_id := st.matches'.length + 1
  let players_upper := players.map normalize_name
  let newRec : MatchRecord :=
    { id := match_id, players := players_upper, time := timestamp, remark := remark }
  let st1 := { st with matches' := st.matches' ++ [newRec] }
  let newStats :=
    players_upper.foldl (fun ps p => dictSet ps p ((dictGet ps p).getD 0 + 1))
      st1.player_stats
  { st1 with player_stats := newStats }

/-- `reset_counters` (badminton_main.py:60-65). -/
def reset_counters (st : DailyState) : DailyState :=
  { st with player_stats := st.player_stats.map (fun kv => (kv.1, 0)),
            matches' := [] }

/-- `today_matches_count(player)` (badminton_main.py:94-99). -/
def today_matches_count (st : DailyState) (player : PyStr) : Nat :=
  st.matches'.countP (fun m => m.players.contains player)

/-- `max([today_matches_count(p) for p in data["player_stats"]], default=1)`
(badminton_main.py:148). -/
def max_today (st : DailyState) : Nat :=
  match st.player_stats.map (fun kv => today_matches_count st kv.1) with
  | [] => 1
  | x :: xs => xs.foldl Nat.max x

/-- The rename handler's body (badminton_main.py:250-258): pops the old key
from `player_stats` (Python raises `KeyError`, modelled as `none`, if the key
is absent), stores its value under the normalized new key, updates
`name_map`, and rewrites every match's player list. -/
def rename_player (st : DailyState) (player_to_edit : PyStr) (new_name : PyStr) :
    Option DailyState :=
  match dictGet st.player_stats player_to_edit with
  | none => none
  | some v =>
    let norm_new := normalize_name new_name
    some { st with
      player_stats := dictSet (dictPop st.player_stats player_to_edit) norm_new v,
      name_map := dictSet (dictPop st.name_map player_to_edit) norm_new norm_new,
      matches' := st.matches'.map (fun m =>
        { m with players := m.players.map (fun p =>
            if p = player_to_edit then norm_new else p) }) }

/-- The remove handler's body (badminton_main.py:267-274): pops the key from
`player_stats` and `name_map` and filters it out of every match's player list. -/
def remove_player (st : DailyState) (player_to_remove : PyStr) : DailyState :=
  { st with
    player_stats := dictPop st.player_stats player_to_remove,
    name_map := dictPop st.name_map player_to_remove,
    matches' := st.matches'.map (fun m =>
      { m with players := m.players.filter (fun p => p ≠ player_to_remove) }) }

/-- Stable insertion used to model Python's stable `sorted(..., key=lambda x:-x[1])`
(badminton_main.py:194): an element moves past another only when the other's
count is strictly larger, so equal counts keep their original order. -/
def insertByCountDesc (x : PyStr × Nat) : List (PyStr × Nat) → List (PyStr × Nat)
  | [] => [x]
  | y :: ys => if y.2 > x.2 then y :: insertByCountDesc x ys else x :: y :: ys

/-- `sorted(data["player_stats"].items(), key=lambda x:-x[1])`
(badminton_main.py:194): the ranked statistics listing. -/
def ranked_counts (st : DailyState) : List (PyStr × Nat) :=
  st.player_stats.foldr insertByCountDesc []

/-- One decimal digit's value, `none` for a non-digit code point. -/
def digitVal (c : Nat) : Option Nat :=
  if 48 ≤ c ∧ c ≤ 57 then some (c - 48) else none

/-- A one- or two-digit field, as accepted by `strptime` for `%H` and `%M`. -/
def parseField : List Nat → Option Nat
  | [d] => digitVal d
  | [d1, d2] => do
      let a ← digitVal d1
      let b ← digitVal d2
      pure (10 * a + b)
  | _ => none

/-- Splits a string at its first colon; `none` when no colon occurs. -/
def splitColon (s : PyStr) : Option (PyStr × PyStr) :=
  match s with
  | [] => none
  | c :: rest =>
    if c = 58 then some ([], rest)
    else match splitColon rest with
      | some (a, b) => some (c :: a, b)
      | none => none

/-- Models `datetime.strptime(t, "%H:%M")` (badminton_main.py:78-80), reduced
to minutes since midnight; `none` models the `ValueError` raised on input
that is not a valid clock time. -/
def parseHM (s : PyStr) : Option Nat := do
  let (hs, ms) ← splitColon s
  let h ← parseField hs
  let m ← parseField ms
  if h < 24 ∧ m < 60 then pure (h * 60 + m) else none

/-- `TIME_RANGES` (badminton_main.py:68-74). -/
def TIME_RANGES : List (PyStr × PyStr) :=
  [ (pystr "5:31", pystr "6:30"),
    (pystr "6:31", pystr "7:00"),
    (pystr "7:01", pystr "7:30"),
    (pystr "7:31", pystr "8:00"),
    (pystr "8:01", pystr "10:00") ]

/-- `time_in_range(t, start, end)` (badminton_main.py:76-81):
`start_dt <= t_dt <= end_dt` after parsing all three; `none` models the
exception propagated when any of the three strings fails to parse. -/
def time_in_range (t start₁ end₁ : PyStr) : Option Bool := do
  let td ← parseHM t
  let sd ← parseHM start₁
  let ed ← parseHM end₁
  pure (decide (sd ≤ td ∧ td ≤ ed))

/-- The bucket label `f"{r[0]}-{r[1]}"` (badminton_main.py:84): start, a
hyphen (code point 45), end. -/
def rangeLabel (r : PyStr × PyStr) : PyStr := r.1 ++ [45] ++ r.2

/-- The body of the per-player counter loops (badminton_main.py:55-56 and
90-91): `d[p] = d.get(p, 0) + 1`. -/
def incrStep (ps : List (PyStr × Nat)) (p : PyStr) : List (PyStr × Nat) :=
  dictSet ps p ((dictGet ps p).getD 0 + 1)

/-- One range-iteration of the `stats_by_time_range` loop
(badminton_main.py:87-91): when the match's time lies in the range, bump the
per-player counts inside that range's bucket. -/
def stepRange (m : MatchRecord) (acc2 : List (PyStr × List (PyStr × Nat)))
    (r : PyStr × PyStr) : List (PyStr × List (PyStr × Nat)) :=
  if time_in_range m.time r.1 r.2 = some true then
    dictSet acc2 (rangeLabel r)
      (m.players.foldl incrStep ((dictGet acc2 (rangeLabel r)).getD []))
  else acc2

/-- One match-iteration of `stats_by_time_range` (badminton_main.py:85-91). -/
def stepMatch (acc : List (PyStr × List (PyStr × Nat))) (m : MatchRecord) :
    List (PyStr × List (PyStr × Nat)) :=
  TIME_RANGES.foldl (stepRange m) acc

/-- The initial buckets, one empty dict per configured range
(badminton_main.py:84). -/
def histInit : List (PyStr × List (PyStr × Nat)) :=
  TIME_RANGES.map (fun r => (rangeLabel r, []))

/-- `stats_by_time_range()` (badminton_main.py:83-92): one bucket per
configured range, each a per-player dict of match counts; a match increments
a bucket exactly when its time parses inside that range. -/
def stats_by_time_range (st : DailyState) : List (PyStr × List (PyStr × Nat)) :=
  st.matches'.foldl stepMatch histInit

/-- The per-player count stored for `q` in the histogram bucket labelled
`label` (0 when absent). -/
def bucketCount (h : List (PyStr × List (PyStr × Nat))) (label q : PyStr) : Nat :=
  (dictGet ((dictGet h label).getD []) q).getD 0

/-! ### Association-list (Python dict) lemmas -/

theorem dictGet_set_self (d : List (PyStr × α)) (k : PyStr) (v : α) :
    dictGet (dictSet d k v) k = some v := by
  induction d with
  | nil => simp [dictGet, dictSet]
  | cons kv rest ih =>
    obtain ⟨k', v'⟩ := kv
    by_cases h : k' = k
    · simp [dictSet, dictGet, h]
    · simp [dictSet, dictGet, h, ih]

theorem dictGet_set_ne (d : List (PyStr × α)) (k q : PyStr) (v : α) (h : q ≠ k) :
    dictGet (dictSet d k v) q = dictGet d q := by
  have h' : ¬ (k = q) := fun hh => h hh.symm
  induction d with
  | nil => simp [dictGet, dictSet, h']
  | cons kv rest ih =>
    obtain ⟨k', v'⟩ := kv
    by_cases hk : k' = k
    · simp [dictSet, dictGet, hk, h']
    · by_cases hq : k' = q
      · subst hq
        simp [dictSet, dictGet, hk]
      · simp [dictSet, dictGet, hk, hq, ih]

theorem dictGet_pop_ne (d : List (PyStr × α)) (k q : PyStr) (h : q ≠ k) :
    dictGet (dictPop d k) q = dictGet d q := by
  have h' : ¬ (k = q) := fun hh => h hh.symm
  induction d with
  | nil => simp [dictPop]
  | cons kv rest ih =>
    obtain ⟨k', v'⟩ := kv
    by_cases hk : k' = k
    · simp [dictPop, dictGet, hk, h']
    · by_cases hq : k' = q
      · subst hq
        simp [dictPop, dictGet, hk]
      · simp [dictPop, dictGet, hk, hq, ih]

theorem dictGet_eq_none_of_not_memKeys (d : List (PyStr × α)) (k : PyStr)
    (h : k ∉ d.map Prod.fst) : dictGet d k = none := by
  induction d with
  | nil => simp [dictGet]
  | cons kv rest ih =>
    obtain ⟨k', v'⟩ := kv
    simp only [List.map_cons, List.mem_cons] at h
    push_neg at h
    have hk : ¬ (k' = k) := fun hh => h.1 hh.symm
    simp [dictGet, hk, ih h.2]

theorem dictGet_pop_self (d : List (PyStr × α)) (k : PyStr)
    (h : (d.map Prod.fst).Nodup) : dictGet (dictPop d k) k = none := by
  induction d with
  | nil => simp [dictPop, dictGet]
  | cons kv rest ih =>
    obtain ⟨k', v'⟩ := kv
    simp only [List.map_cons, List.nodup_cons] at h
    by_cases hk : k' = k
    · simp only [dictPop, if_pos hk]
      exact dictGet_eq_none_of_not_memKeys rest k (hk ▸ h.1)
    · simp only [dictPop, if_neg hk, dictGet, if_neg hk]
      exact ih h.2

theorem dictGet_mem {d : List (PyStr × α)} {k : PyStr} {v : α}
    (h : dictGet d k = some v) : (k, v) ∈ d := by
  induction d with
  | nil => simp [dictGet] at h
  | cons kv rest ih =>
    obtain ⟨k', v'⟩ := kv
    by_cases hk : k' = k
    · subst hk
      simp [dictGet] at h
      simp [h]
    · simp only [dictGet, if_neg hk] at h
      exact List.mem_cons_of_mem _ (ih h)

theorem mem_dictGet {d : List (PyStr × α)} {k : PyStr} {v : α}
    (hnd : (d.map Prod.fst).Nodup) (h : (k, v) ∈ d) : dictGet d k = some v := by
  induction d with
  | nil => simp at h
  | cons kv rest ih =>
    obtain ⟨k', v'⟩ := kv
    simp only [List.map_cons, List.nodup_cons] at hnd
    rcases List.mem_cons.mp h with h1 | h1
    · rw [Prod.mk.injEq] at h1
      simp [dictGet, h1.1.symm, h1.2]
    · have hk : ¬ (k' = k) := by
        intro hh
        subst hh
        exact hnd.1 (List.mem_map.mpr ⟨(k', v), h1, rfl⟩)
      simp only [dictGet, if_neg hk]
      exact ih hnd.2 h1

theorem keys_dictSet (d : List (PyStr × α)) (k : PyStr) (v : α) :
    (dictSet d k v).map Prod.fst =
      if dictContains d k then d.map Prod.fst else d.map Prod.fst ++ [k] := by
  induction d with
  | nil => simp [dictSet, dictContains, dictGet]
  | cons kv rest ih =>
    obtain ⟨k', v'⟩ := kv
    by_cases hk : k' = k
    · simp [dictSet, dictContains, dictGet, hk]
    · simp only [dictSet, if_neg hk, List.map_cons, dictContains, dictGet, if_neg hk, ih]
      by_cases hc : (dictGet rest k).isSome
      · simp [dictContains, hc]
      · simp [dictContains, hc]

theorem keys_nodup_dictSet (d : List (PyStr × α)) (k : PyStr) (v : α)
    (h : (d.map Prod.fst).Nodup) : ((dictSet d k v).map Prod.fst).Nodup := by
  rw [keys_dictSet]
  by_cases hc : dictContains d k = true
  · rw [if_pos hc]
    exact h
  · rw [if_neg hc]
    rw [List.nodup_append]
    refine ⟨h, List.nodup_singleton k, ?_⟩
    intro a ha hb
    simp only [List.mem_singleton] at hb
    subst hb
    rcases List.mem_map.mp ha with ⟨⟨k2, v2⟩, hm, hk2⟩
    simp only at hk2
    subst hk2
    rw [dictContains, Option.isSome_iff_exists] at hc
    push_neg at hc
    exact hc v2 (mem_dictGet h hm)

theorem dictContains_of_get {d : List (PyStr × α)} {k : PyStr} {v : α}
    (h : dictGet d k = some v) : dictContains d k = true := by
  rw [dictContains, h]
  rfl

/-! ### Normalization lemmas -/

theorem isPySpace_upperChar (c : Nat) : isPySpace (upperChar c) = isPySpace c := by
  unfold upperChar
  by_cases h : 97 ≤ c ∧ c ≤ 122
  · rw [if_pos h]
    have h1 : isPySpace (c - 32) = false := by
      simp only [isPySpace, Bool.or_eq_false_iff, decide_eq_false_iff_not]
      omega
    have h2 : isPySpace c = false := by
      simp only [isPySpace, Bool.or_eq_false_iff, decide_eq_false_iff_not]
      omega
    rw [h1, h2]
  · rw [if_neg h]

theorem upperChar_idem (c : Nat) : upperChar (upperChar c) = upperChar c := by
  unfold upperChar
  by_cases h : 97 ≤ c ∧ c ≤ 122
  · rw [if_pos h]
    have h2 : ¬ (97 ≤ c - 32 ∧ c - 32 ≤ 122) := by omega
    rw [if_neg h2]
  · rw [if_neg h, if_neg h]

theorem pyUpper_idem (s : PyStr) : pyUpper (pyUpper s) = pyUpper s := by
  simp only [pyUpper, List.map_map]
  exact List.map_congr_left (fun c _ => upperChar_idem c)

theorem dropWhile_pyUpper (s : PyStr) :
    List.dropWhile isPySpace (pyUpper s) = pyUpper (List.dropWhile isPySpace s) := by
  induction s with
  | nil => rfl
  | cons c cs ih =>
    simp only [pyUpper, List.map_cons, List.dropWhile_cons, isPySpace_upperChar]
    by_cases h : isPySpace c = true
    · simpa [h] using ih
    · simp [h, pyUpper]

theorem rdropWhile_pyUpper (s : PyStr) :
    List.rdropWhile isPySpace (pyUpper s) = pyUpper (List.rdropWhile isPySpace s) := by
  simp only [List.rdropWhile, pyUpper, ← List.map_reverse]
  rw [show (List.map upperChar s.reverse).dropWhile isPySpace
        = pyUpper (s.reverse.dropWhile isPySpace) from dropWhile_pyUpper s.reverse]
  simp [pyUpper, List.map_reverse]

theorem pyStrip_pyUpper (s : PyStr) :
    pyStrip (pyUpper s) = pyUpper (pyStrip s) := by
  rw [pyStrip, dropWhile_pyUpper, rdropWhile_pyUpper, pyStrip]

theorem prefix_head_eq {α : Type} {x l : List α} (h : x <+: l) (hx : x ≠ []) :
    ∃ a x' l', x = a :: x' ∧ l = a :: l' := by
  obtain ⟨t, ht⟩ := h
  cases x with
  | nil => exact absurd rfl hx
  | cons a x' => exact ⟨a, x', x' ++ t, rfl, by rw [← ht]; rfl⟩

theorem pyStrip_idem (s : PyStr) : pyStrip (pyStrip s) = pyStrip s := by
  set p := isPySpace
  set l₁ := List.dropWhile p s with hl₁
  have hfix : List.dropWhile p l₁ = l₁ := by
    rw [hl₁]
    exact List.dropWhile_idempotent p s
  set x := List.rdropWhile p l₁ with hx
  have hpre : x <+: l₁ := List.rdropWhile_prefix p l₁
  have hdw : List.dropWhile p x = x := by
    rcases Decidable.em (x = []) with hnil | hnil
    · rw [hnil]
      rfl
    · obtain ⟨a, x', l', hx1, hl1⟩ := prefix_head_eq hpre hnil
      have hhd : p a = false := by
        have := List.dropWhile_eq_self_iff.mp hfix
        rw [hl1] at this
        simpa using this (by simp)
      rw [hx1, List.dropWhile_cons, hhd]
      simp
  show List.rdropWhile p (List.dropWhile p x) = x
  rw [hdw, hx, List.rdropWhile_idempotent]

/-- `normalize_name` is idempotent. -/
theorem normalize_name_idem (s : PyStr) :
    normalize_name (normalize_name s) = normalize_name s := by
  unfold normalize_name
  rw [pyStrip_pyUpper, pyStrip_idem, pyUpper_idem]

/-! ### Counter-increment fold lemmas -/

theorem pyContains_iff {l : List PyStr} {q : PyStr} : l.contains q = true ↔ q ∈ l :=
  List.elem_iff

theorem foldl_incr_get (l : List PyStr) (d : List (PyStr × Nat)) (hnd : l.Nodup)
    (q : PyStr) :
    dictGet (l.foldl incrStep d) q
      = if q ∈ l then some ((dictGet d q).getD 0 + 1) else dictGet d q := by
  induction l generalizing d with
  | nil => simp
  | cons p rest ih =>
    simp only [List.foldl_cons]
    rcases List.nodup_cons.mp hnd with ⟨hp, hrest⟩
    by_cases hq : q = p
    · subst hq
      rw [ih _ hrest, if_neg hp, incrStep, dictGet_set_self]
      simp
    · rw [ih _ hrest, incrStep, dictGet_set_ne _ _ _ _ hq]
      by_cases hm : q ∈ rest
      · simp [hm, hq]
      · simp [hm, hq]

theorem foldl_incr_keys_nodup (l : List PyStr) (d : List (PyStr × Nat))
    (h : (d.map Prod.fst).Nodup) :
    ((l.foldl incrStep d).map Prod.fst).Nodup := by
  induction l generalizing d with
  | nil => exact h
  | cons p rest ih => exact ih _ (keys_nodup_dictSet _ _ _ h)

/-! ### The counter invariant -/

/-- Well-formedness inherited from Python dicts: counter keys are unique. -/
def KeysNodup (st : DailyState) : Prop := (st.player_stats.map Prod.fst).Nodup

/-- The spec's counter invariant: every entry of the counters map equals the
number of recorded matches whose player list contains that key. -/
def counterInv (st : DailyState) : Prop :=
  ∀ kv ∈ st.player_stats,
    kv.2 = st.matches'.countP (fun m => m.players.contains kv.1)

instance decidableKeysNodup (st : DailyState) : Decidable (KeysNodup st) :=
  inferInstanceAs (Decidable ((st.player_stats.map Prod.fst).Nodup))

instance decidableCounterInv (st : DailyState) : Decidable (counterInv st) :=
  List.decidableBAll _ _

theorem counterInv_iff_get {st : DailyState} (h : KeysNodup st) :
    counterInv st ↔ ∀ p c, dictGet st.player_stats p = some c →
      c = st.matches'.countP (fun m => m.players.contains p) := by
  constructor
  · intro hinv p c hget
    exact hinv (p, c) (dictGet_mem hget)
  · intro hget kv hm
    exact hget kv.1 kv.2 (mem_dictGet h hm)

theorem add_match_matches (st : DailyState) (players : List PyStr)
    (remark timestamp : PyStr) :
    (add_match st players remark timestamp).matches' = st.matches' ++
      [{ id := st.matches'.length + 1, players := players.map normalize_name,
         time := timestamp, remark := remark }] := rfl

theorem add_match_stats (st : DailyState) (players : List PyStr)
    (remark timestamp : PyStr) :
    (add_match st players remark timestamp).player_stats
      = (players.map normalize_name).foldl incrStep st.player_stats := rfl

theorem add_match_keysNodup (st : DailyState) (players : List PyStr)
    (remark timestamp : PyStr) (h : KeysNodup st) :
    KeysNodup (add_match st players remark timestamp) :=
  foldl_incr_keys_nodup _ _ h

theorem add_match_contains_mono (st : DailyState) (players : List PyStr)
    (remark timestamp : PyStr) (hpu : (players.map normalize_name).Nodup)
    (q : PyStr) (h : dictContains st.player_stats q = true) :
    dictContains (add_match st players remark timestamp).player_stats q = true := by
  rw [dictContains, add_match_stats, foldl_incr_get _ _ hpu]
  by_cases hm : q ∈ players.map normalize_name
  · simp [hm]
  · rw [if_neg hm]
    exact h

theorem countP_append_singleton (f : MatchRecord → Bool) (l : List MatchRecord)
    (m : MatchRecord) :
    List.countP f (l ++ [m]) = List.countP f l + (if f m then 1 else 0) := by
  simp [List.countP_append, List.countP_cons]

theorem add_match_counterInv (st : DailyState) (players : List PyStr)
    (remark timestamp : PyStr) (hnd : KeysNodup st) (hinv : counterInv st)
    (hpu : (players.map normalize_name).Nodup)
    (hreg : ∀ q ∈ players.map normalize_name,
      dictContains st.player_stats q = true) :
    counterInv (add_match st players remark timestamp) := by
  rw [counterInv_iff_get (add_match_keysNodup _ _ _ _ hnd)]
  intro p c hget
  rw [add_match_stats, foldl_incr_get _ _ hpu] at hget
  rw [add_match_matches, countP_append_singleton]
  have hrec : ∀ m : MatchRecord, m.players = players.map normalize_name →
      (m.players.contains p) = (players.map normalize_name).contains p := by
    intro m hm
    rw [hm]
  rw [hrec _ rfl]
  by_cases hm : p ∈ players.map normalize_name
  · have hcont : (players.map normalize_name).contains p = true :=
      pyContains_iff.mpr hm
    rw [if_pos hcont, if_pos hm] at *
    have hc : dictContains st.player_stats p = true := hreg p hm
    rw [dictContains, Option.isSome_iff_exists] at hc
    obtain ⟨c₀, hc₀⟩ := hc
    have hcnt : c₀ = st.matches'.countP (fun m => m.players.contains p) :=
      (counterInv_iff_get hnd).mp hinv p c₀ hc₀
    rw [hc₀] at hget
    simp only [Option.getD_some, Option.some.injEq] at hget
    omega
  · have hcont : ¬ ((players.map normalize_name).contains p = true) :=
      fun hh => hm (pyContains_iff.mp hh)
    rw [if_neg hcont, if_neg hm] at *
    have := (counterInv_iff_get hnd).mp hinv p c hget
    omega

theorem add_match_get_mem (st : DailyState) (players : List PyStr)
    (remark timestamp : PyStr) (hpu : (players.map normalize_name).Nodup)
    (q : PyStr) (hq : q ∈ players.map normalize_name) :
    dictGet (add_match st players remark timestamp).player_stats q
      = some ((dictGet st.player_stats q).getD 0 + 1) := by
  rw [add_match_stats, foldl_incr_get _ _ hpu, if_pos hq]

theorem add_match_get_not_mem (st : DailyState) (players : List PyStr)
    (remark timestamp : PyStr) (hpu : (players.map normalize_name).Nodup)
    (q : PyStr) (hq : q ∉ players.map normalize_name) :
    dictGet (add_match st players remark timestamp).player_stats q
      = dictGet st.player_stats q := by
  rw [add_match_stats, foldl_incr_get _ _ hpu, if_neg hq]

/-- A sequence of `add_match` calls; each entry is (players, remark, timestamp). -/
def add_matches (st : DailyState) (calls : List (List PyStr × PyStr × PyStr)) :
    DailyState :=
  calls.foldl (fun s c => add_match s c.1 c.2.1 c.2.2) st

theorem add_matches_counterInv (calls : List (List PyStr × PyStr × PyStr)) :
    ∀ st : DailyState, KeysNodup st → counterInv st →
    (∀ c ∈ calls, (c.1.map normalize_name).Nodup ∧
      ∀ q ∈ c.1.map normalize_name, dictContains st.player_stats q = true) →
    counterInv (add_matches st calls) := by
  induction calls with
  | nil =>
    intro st _ hinv _
    exact hinv
  | cons c rest ih =>
    intro st hnd hinv hv
    obtain ⟨hpu, hreg⟩ := hv c (List.mem_cons_self _ _)
    have h1 := add_match_counterInv st c.1 c.2.1 c.2.2 hnd hinv hpu hreg
    have h2 := add_match_keysNodup st c.1 c.2.1 c.2.2 hnd
    show counterInv (add_matches (add_match st c.1 c.2.1 c.2.2) rest)
    apply ih _ h2 h1
    intro c2 hc2
    obtain ⟨hpu2, hreg2⟩ := hv c2 (List.mem_cons_of_mem _ hc2)
    exact ⟨hpu2, fun q hq => add_match_contains_mono _ _ _ _ hpu q (hreg2 q hq)⟩

/-- C1: starting from a state whose counters map has unique keys and satisfies
the counter invariant, every sequence of successful `add_match` calls (4
selected players, pairwise distinct after normalization, all registered)
preserves the invariant that each counter entry equals the number of recorded
matches containing its key; moreover each single call appends exactly one
match record and increments exactly its 4 players' counter entries by 1,
leaving every other counter entry unchanged. -/
theorem C1_addMatch_counter_invariant :
    (∀ (st : DailyState) (calls : List (List PyStr × PyStr × PyStr)),
      KeysNodup st → counterInv st →
      (∀ c ∈ calls, c.1.length = 4 ∧ (c.1.map normalize_name).Nodup ∧
        ∀ q ∈ c.1.map normalize_name, dictContains st.player_stats q = true) →
      counterInv (add_matches st calls)) ∧
    (∀ (st : DailyState) (players : List PyStr) (remark timestamp : PyStr),
      players.length = 4 → (players.map normalize_name).Nodup →
      (add_match st players remark timestamp).matches'
        = st.matches' ++ [MatchRecord.mk (st.matches'.length + 1)
            (players.map normalize_name) timestamp remark] ∧
      (add_match st players remark timestamp).matches'.length
        = st.matches'.length + 1 ∧
      (∀ q ∈ players.map normalize_name,
        dictGet (add_match st players remark timestamp).player_stats q
          = some ((dictGet st.player_stats q).getD 0 + 1)) ∧
      (∀ q, q ∉ players.map normalize_name →
        dictGet (add_match st players remark timestamp).player_stats q
          = dictGet st.player_stats q)) := by
  constructor
  · intro st calls hnd hinv hv
    exact add_matches_counterInv calls st hnd hinv
      (fun c hc => ⟨(hv c hc).2.1, (hv c hc).2.2⟩)
  · intro st players remark timestamp _ hpu
    refine ⟨add_match_matches st players remark timestamp, ?_, ?_, ?_⟩
    · rw [add_match_matches]
      simp
    · exact fun q hq => add_match_get_mem st players remark timestamp hpu q hq
    · exact fun q hq => add_match_get_not_mem st players remark timestamp hpu q hq

/-- The running example roster: four registered players with zeroed counters
and no matches yet (spec §8's scenario). -/
def exampleState : DailyState :=
  { date := pystr "2024-01-01",
    player_stats := [(pystr "ALICE", 0), (pystr "BOB", 0),
                     (pystr "CAROL", 0), (pystr "DAVE", 0)],
    name_map := [(pystr "ALICE", pystr "ALICE"), (pystr "BOB", pystr "BOB"),
                 (pystr "CAROL", pystr "CAROL"), (pystr "DAVE", pystr "DAVE")],
    matches' := [] }

/-- The four players of the example match, as selected in the UI. -/
def examplePlayers : List PyStr :=
  [pystr "ALICE", pystr "BOB", pystr "CAROL", pystr "DAVE"]

/-- Witness for C1 at the concrete example state and one concrete call. -/
theorem C1_addMatch_counter_invariant_witness :
    counterInv (add_matches exampleState
      [(examplePlayers, pystr "", pystr "06:45")]) ∧
    ∀ q ∈ examplePlayers.map normalize_name,
      dictGet (add_match exampleState examplePlayers (pystr "") (pystr "06:45")).player_stats q
        = some ((dictGet exampleState.player_stats q).getD 0 + 1) := by
  constructor
  · exact C1_addMatch_counter_invariant.1 exampleState
      [(examplePlayers, pystr "", pystr "06:45")]
      (by decide) (by decide)
      (by
        intro c hc
        simp only [List.mem_singleton] at hc
        subst hc
        exact ⟨by decide, by decide, by decide⟩)
  · exact (C1_addMatch_counter_invariant.2 exampleState examplePlayers
      (pystr "") (pystr "06:45") (by decide) (by decide)).2.2.1

/-- A stale snapshot (stamped 2024-01-01) holding one registered player with
one recorded match. -/
def staleState : DailyState :=
  { date := pystr "2024-01-01",
    player_stats := [(pystr "ALICE", 1)],
    name_map := [(pystr "ALICE", pystr "ALICE")],
    matches' := [MatchRecord.mk 1
      [pystr "ALICE", pystr "BOB", pystr "CAROL", pystr "DAVE"]
      (pystr "06:45") (pystr "")] }

/-- C2 counterexample: loading the stale snapshot on 2024-01-02 deletes the
registered player's counter entry entirely instead of zeroing it in place —
the key ALICE is no longer present in the counters map. -/
theorem C2_rollover_counterexample :
    dictGet (load_rollover (pystr "2024-01-02") staleState).player_stats
      (pystr "ALICE") ≠ some 0 ∧
    dictContains (load_rollover (pystr "2024-01-02") staleState).player_stats
      (pystr "ALICE") = false := by decide

/-- C2 (amended): on a date mismatch the load-time rollover preserves the
`name_map` registry unchanged, replaces the match list with the empty
sequence, re-stamps the date, and replaces the counters map with the empty
map — deleting every counter entry (including those of registered players)
rather than zeroing them in place; the transition is idempotent. -/
theorem C2_rollover_behavior (st : DailyState) (todayStr : PyStr)
    (h : st.date ≠ todayStr) :
    (load_rollover todayStr st).name_map = st.name_map ∧
    (load_rollover todayStr st).matches' = [] ∧
    (load_rollover todayStr st).player_stats = [] ∧
    (load_rollover todayStr st).date = todayStr ∧
    load_rollover todayStr (load_rollover todayStr st)
      = load_rollover todayStr st := by
  unfold load_rollover
  rw [if_pos h]
  refine ⟨rfl, rfl, rfl, rfl, ?_⟩
  simp

/-- Witness for C2 at the concrete stale snapshot. -/
theorem C2_rollover_behavior_witness :
    (load_rollover (pystr "2024-01-02") staleState).name_map
      = staleState.name_map ∧
    (load_rollover (pystr "2024-01-02") staleState).matches' = [] ∧
    (load_rollover (pystr "2024-01-02") staleState).player_stats = [] ∧
    (load_rollover (pystr "2024-01-02") staleState).date = pystr "2024-01-02" ∧
    load_rollover (pystr "2024-01-02") (load_rollover (pystr "2024-01-02") staleState)
      = load_rollover (pystr "2024-01-02") staleState :=
  C2_rollover_behavior staleState (pystr "2024-01-02") (by decide)

/-- A state with only three registered players. -/
def threePlayerState : DailyState :=
  { date := pystr "2024-01-01",
    player_stats := [(pystr "ALICE", 0), (pystr "BOB", 0), (pystr "CAROL", 0)],
    name_map := [(pystr "ALICE", pystr "ALICE"), (pystr "BOB", pystr "BOB"),
                 (pystr "CAROL", pystr "CAROL")],
    matches' := [] }

/-- C3 counterexample: adding a match that includes the unregistered key EVE
does not fail and does not leave the state unchanged — the record is appended
and a counter entry for EVE is created with value 1. -/
theorem C3_unknown_player_counterexample :
    dictContains threePlayerState.player_stats (pystr "EVE") = false ∧
    (add_match threePlayerState
      [pystr "ALICE", pystr "BOB", pystr "CAROL", pystr "EVE"]
      (pystr "") (pystr "06:45")).matches'.length = 1 ∧
    dictGet (add_match threePlayerState
      [pystr "ALICE", pystr "BOB", pystr "CAROL", pystr "EVE"]
      (pystr "") (pystr "06:45")).player_stats (pystr "EVE") = some 1 := by decide

/-- C3 (amended): `add_match` performs no registration check. For any state
and any call whose normalized players are pairwise distinct, if one of them
has no counter entry the call still succeeds: it appends the match record and
creates that player's counter entry with value 1 (unregistered selections are
prevented only upstream, by the UI offering registered players only). -/
theorem C3_no_unknown_player_check (st : DailyState) (players : List PyStr)
    (remark timestamp : PyStr) (q : PyStr)
    (hpu : (players.map normalize_name).Nodup)
    (hq : q ∈ players.map normalize_name)
    (hunreg : dictGet st.player_stats q = none) :
    (add_match st players remark timestamp).matches'.length
      = st.matches'.length + 1 ∧
    dictGet (add_match st players remark timestamp).player_stats q = some 1 := by
  refine ⟨?_, ?_⟩
  · rw [add_match_matches]
    simp
  · rw [add_match_get_mem st players remark timestamp hpu q hq, hunreg]
    rfl

/-- Witness for C3 at the concrete three-player state with unregistered EVE. -/
theorem C3_no_unknown_player_check_witness :
    (add_match threePlayerState
      [pystr "ALICE", pystr "BOB", pystr "CAROL", pystr "EVE"]
      (pystr "") (pystr "06:45")).matches'.length
      = threePlayerState.matches'.length + 1 ∧
    dictGet (add_match threePlayerState
      [pystr "ALICE", pystr "BOB", pystr "CAROL", pystr "EVE"]
      (pystr "") (pystr "06:45")).player_stats (pystr "EVE") = some 1 :=
  C3_no_unknown_player_check threePlayerState
    [pystr "ALICE", pystr "BOB", pystr "CAROL", pystr "EVE"]
    (pystr "") (pystr "06:45") (pystr "EVE")
    (by decide) (by decide) (by decide)

/-- A consistent state with five registered players and two matches, in which
ALICE has played 1 match and BOB 2. -/
def conflictState : DailyState :=
  { date := pystr "2024-01-01",
    player_stats := [(pystr "ALICE", 1), (pystr "BOB", 2), (pystr "CAROL", 2),
                     (pystr "DAVE", 2), (pystr "EVE", 1)],
    name_map := [(pystr "ALICE", pystr "ALICE"), (pystr "BOB", pystr "BOB"),
                 (pystr "CAROL", pystr "CAROL"), (pystr "DAVE", pystr "DAVE"),
                 (pystr "EVE", pystr "EVE")],
    matches' := [MatchRecord.mk 1
        [pystr "ALICE", pystr "BOB", pystr "CAROL", pystr "DAVE"]
        (pystr "06:45") (pystr ""),
      MatchRecord.mk 2
        [pystr "BOB", pystr "CAROL", pystr "DAVE", pystr "EVE"]
        (pystr "07:10") (pystr "")] }

/-- C4 counterexample: renaming ALICE to "bob" (which normalizes to the
existing different key BOB) does not fail and does not leave the state
unchanged — it succeeds and overwrites BOB's counter (2) with ALICE's (1). -/
theorem C4_rename_conflict_counterexample :
    (rename_player conflictState (pystr "ALICE") (pystr "bob")).isSome = true ∧
    rename_player conflictState (pystr "ALICE") (pystr "bob")
      ≠ some conflictState ∧
    (rename_player conflictState (pystr "ALICE") (pystr "bob")).map
      (fun st' => dictGet st'.player_stats (pystr "BOB")) = some (some 1) := by
  decide

/-- C4 (amended): the rename handler performs no conflict check. Renaming a
registered player P to a raw name normalizing to a different registered key Q
succeeds and silently merges the two: Q's counter entry is overwritten with
P's former count, P's counter and name_map entries disappear, and every
occurrence of P in every match record is rewritten to Q. -/
theorem C4_rename_no_conflict_check (st : DailyState) (pOld rawNew : PyStr)
    (hnd : KeysNodup st) (hndm : (st.name_map.map Prod.fst).Nodup)
    (vOld : Nat) (hold : dictGet st.player_stats pOld = some vOld)
    (hne : normalize_name rawNew ≠ pOld) :
    (rename_player st pOld rawNew).isSome = true ∧
    ∀ st', rename_player st pOld rawNew = some st' →
      dictGet st'.player_stats (normalize_name rawNew) = some vOld ∧
      dictGet st'.player_stats pOld = none ∧
      dictGet st'.name_map pOld = none ∧
      st'.matches' = st.matches'.map (fun m =>
        { m with players := m.players.map (fun p =>
            if p = pOld then normalize_name rawNew else p) }) := by
  constructor
  · rw [rename_player, hold]
    rfl
  · intro st' hst'
    rw [rename_player, hold] at hst'
    simp only [Option.some.injEq] at hst'
    subst hst'
    refine ⟨?_, ?_, ?_, rfl⟩
    · exact dictGet_set_self _ _ _
    · rw [dictGet_set_ne _ _ _ _ (fun hh => hne hh.symm)]
      exact dictGet_pop_self _ _ hnd
    · rw [dictGet_set_ne _ _ _ _ (fun hh => hne hh.symm)]
      exact dictGet_pop_self _ _ hndm

/-- Witness for C4 at the concrete conflict state. -/
theorem C4_rename_no_conflict_check_witness :
    (rename_player conflictState (pystr "ALICE") (pystr "bob")).isSome = true ∧
    ∀ st', rename_player conflictState (pystr "ALICE") (pystr "bob") = some st' →
      dictGet st'.player_stats (normalize_name (pystr "bob")) = some 1 ∧
      dictGet st'.player_stats (pystr "ALICE") = none ∧
      dictGet st'.name_map (pystr "ALICE") = none ∧
      st'.matches' = conflictState.matches'.map (fun m =>
        { m with players := m.players.map (fun p =>
            if p = pystr "ALICE" then normalize_name (pystr "bob") else p) }) :=
  C4_rename_no_conflict_check conflictState (pystr "ALICE") (pystr "bob")
    (by decide) (by decide) 1 (by decide) (by decide)

theorem length_filter_ne_lt (k : PyStr) (l : List PyStr) (h : k ∈ l) :
    (l.filter (fun p => p ≠ k)).length < l.length := by
  induction l with
  | nil => simp at h
  | cons a rest ih =>
    by_cases ha : a = k
    · subst ha
      have hle := List.length_filter_le (fun p => (!decide (p = a))) rest
      simp only [List.filter_cons, ne_eq, decide_not] at hle ⊢
      simp only [decide_eq_true_eq, Bool.not_eq_eq_eq_not, Bool.not_true,
        decide_eq_false_iff_not, Decidable.not_not, List.length_cons]
      rw [if_neg (by simp)]
      omega
    · have hmem : k ∈ rest := by
        rcases List.mem_cons.mp h with h1 | h1
        · exact absurd h1.symm ha
        · exact h1
      have h2 := ih hmem
      simp only [List.filter_cons, ne_eq, decide_not] at h2 ⊢
      rw [if_pos (by simp [ha])]
      simp only [List.length_cons]
      omega

/-- C5: removing a registered player deletes its counter entry and its
registry (name_map) entry, keeps the number of match records unchanged, and
rewrites each record in place: same id, time and remark, with the removed key
filtered out of the player list, so a record that referenced the key keeps
existing but with fewer than 4 player entries. -/
theorem C5_remove_player (st : DailyState) (k : PyStr)
    (hnd : KeysNodup st) (hndm : (st.name_map.map Prod.fst).Nodup)
    (hreg : dictContains st.player_stats k = true)
    (hlen : ∀ m ∈ st.matches', m.players.length ≤ 4) :
    dictGet (remove_player st k).player_stats k = none ∧
    dictGet (remove_player st k).name_map k = none ∧
    (remove_player st k).matches'.length = st.matches'.length ∧
    List.Forall₂ (fun m m' : MatchRecord =>
      m'.id = m.id ∧ m'.time = m.time ∧ m'.remark = m.remark ∧
      m'.players = m.players.filter (fun p => p ≠ k) ∧
      k ∉ m'.players ∧ (k ∈ m.players → m'.players.length < 4))
      st.matches' (remove_player st k).matches' := by
  refine ⟨dictGet_pop_self _ _ hnd, dictGet_pop_self _ _ hndm, by simp [remove_player], ?_⟩
  show List.Forall₂ _ st.matches' (st.matches'.map _)
  rw [List.forall₂_map_right_iff, List.forall₂_same]
  intro m hm
  refine ⟨rfl, rfl, rfl, rfl, ?_, ?_⟩
  · intro hk
    rcases List.mem_filter.mp hk with ⟨_, hdec⟩
    simp at hdec
  · intro hk
    exact lt_of_lt_of_le (length_filter_ne_lt k m.players hk) (hlen m hm)

/-- Witness for C5: removing ALICE from the one-match example state. -/
theorem C5_remove_player_witness :
    dictGet (remove_player staleState (pystr "ALICE")).player_stats
      (pystr "ALICE") = none ∧
    dictGet (remove_player staleState (pystr "ALICE")).name_map
      (pystr "ALICE") = none ∧
    (remove_player staleState (pystr "ALICE")).matches'.length
      = staleState.matches'.length ∧
    List.Forall₂ (fun m m' : MatchRecord =>
      m'.id = m.id ∧ m'.time = m.time ∧ m'.remark = m.remark ∧
      m'.players = m.players.filter (fun p => p ≠ pystr "ALICE") ∧
      pystr "ALICE" ∉ m'.players ∧
      (pystr "ALICE" ∈ m.players → m'.players.length < 4))
      staleState.matches' (remove_player staleState (pystr "ALICE")).matches' :=
  C5_remove_player staleState (pystr "ALICE")
    (by decide) (by decide) (by decide) (by decide)

theorem insertByCountDesc_eq (x : PyStr × Nat) (l : List (PyStr × Nat)) :
    insertByCountDesc x l
      = List.orderedInsert (fun a b : PyStr × Nat => b.2 ≤ a.2) x l := by
  induction l with
  | nil => rfl
  | cons y ys ih =>
    simp only [insertByCountDesc, List.orderedInsert]
    by_cases h : y.2 ≤ x.2
    · rw [if_neg (by omega), if_pos h]
    · rw [if_pos (by omega), if_neg h, ih]

theorem foldr_insertByCountDesc_eq (l : List (PyStr × Nat)) :
    l.foldr insertByCountDesc []
      = List.insertionSort (fun a b : PyStr × Nat => b.2 ≤ a.2) l := by
  induction l with
  | nil => rfl
  | cons x xs ih =>
    simp only [List.foldr_cons, List.insertionSort, ih, insertByCountDesc_eq]

/-- Ranked listing with insertion order A, B, C: A registered before B. -/
def tieStateAB : DailyState :=
  { date := pystr "2024-01-01",
    player_stats := [(pystr "A", 3), (pystr "B", 3), (pystr "C", 1)],
    name_map := [(pystr "A", pystr "A"), (pystr "B", pystr "B"),
                 (pystr "C", pystr "C")],
    matches' := [MatchRecord.mk 1 [pystr "A", pystr "B", pystr "C"]
        (pystr "06:45") (pystr ""),
      MatchRecord.mk 2 [pystr "A", pystr "B"] (pystr "07:10") (pystr ""),
      MatchRecord.mk 3 [pystr "A", pystr "B"] (pystr "07:40") (pystr "")] }

/-- The same counts with insertion order B, A, C: B registered before A. -/
def tieStateBA : DailyState :=
  { tieStateAB with
    player_stats := [(pystr "B", 3), (pystr "A", 3), (pystr "C", 1)] }

/-- C6 counterexample: with counts A:3, B:3, C:1 but insertion order B, A, C,
the listing puts B before A, so the claimed ascending-key tie-break output is
not produced. -/
theorem C6_tie_order_counterexample :
    ranked_counts tieStateBA
      ≠ [(pystr "A", 3), (pystr "B", 3), (pystr "C", 1)] ∧
    ranked_counts tieStateBA
      = [(pystr "B", 3), (pystr "A", 3), (pystr "C", 1)] := by decide

/-- C6 (amended): the listing contains exactly the registered players (it is
a permutation of the counters map) ordered by descending match count, but
ties keep the counters map's insertion order (Python's stable sort on the
negated count): with counts A:3, B:3, C:1 the result is [(A,3),(B,3),(C,1)]
when A was inserted before B and [(B,3),(A,3),(C,1)] when B was inserted
before A. -/
theorem C6_ranking_behavior :
    (∀ st : DailyState, (ranked_counts st).Perm st.player_stats ∧
      List.Sorted (fun a b : PyStr × Nat => b.2 ≤ a.2) (ranked_counts st)) ∧
    ranked_counts tieStateAB
      = [(pystr "A", 3), (pystr "B", 3), (pystr "C", 1)] ∧
    ranked_counts tieStateBA
      = [(pystr "B", 3), (pystr "A", 3), (pystr "C", 1)] := by
  refine ⟨?_, by decide, by decide⟩
  intro st
  rw [ranked_counts, foldr_insertByCountDesc_eq]
  constructor
  · exact List.perm_insertionSort _ _
  · haveI : IsTotal (PyStr × Nat) (fun a b => b.2 ≤ a.2) :=
      ⟨fun a b => Nat.le_total b.2 a.2⟩
    haveI : IsTrans (PyStr × Nat) (fun a b => b.2 ≤ a.2) :=
      ⟨fun a b c h1 h2 => Nat.le_trans h2 h1⟩
    exact List.sorted_insertionSort _ _

theorem le_foldl_max (xs : List Nat) :
    ∀ (x : Nat), ∀ y ∈ x :: xs, y ≤ xs.foldl Nat.max x := by
  induction xs with
  | nil =>
    intro x y hy
    simp at hy
    simp [hy]
  | cons a rest ih =>
    intro x y hy
    simp only [List.foldl_cons]
    rcases List.mem_cons.mp hy with rfl | hy2
    · exact le_trans (Nat.le_max_left y a) (ih (Nat.max y a) _ (List.mem_cons_self _ _))
    · rcases List.mem_cons.mp hy2 with rfl | hy3
      · exact le_trans (Nat.le_max_right x y) (ih _ _ (List.mem_cons_self _ _))
      · exact ih _ _ (List.mem_cons_of_mem _ hy3)

theorem foldl_max_mem (xs : List Nat) : ∀ x, xs.foldl Nat.max x ∈ x :: xs := by
  induction xs with
  | nil =>
    intro x
    simp
  | cons a rest ih =>
    intro x
    simp only [List.foldl_cons]
    rcases List.mem_cons.mp (ih (Nat.max x a)) with h | h
    · rcases Nat.le_total x a with hle | hle
      · have hm : x.max a = a := Nat.max_eq_right hle
        rw [h, hm]
        exact List.mem_cons_of_mem _ (List.mem_cons_self _ _)
      · have hm : x.max a = x := Nat.max_eq_left hle
        rw [h, hm]
        exact List.mem_cons_self _ _
    · exact List.mem_cons_of_mem _ (List.mem_cons_of_mem _ h)

/-- A state with no registered players at all. -/
def emptyRosterState : DailyState :=
  { date := pystr "2024-01-01", player_stats := [], name_map := [],
    matches' := [] }

/-- C8 counterexample: with four registered players and all counters zero the
rendering maximum is 0 (not floored to 1), while with no registered players
it is 1 (the `default=1` of Python's `max`), not 0. -/
theorem C8_max_count_counterexample :
    max_today exampleState = 0 ∧ max_today emptyRosterState = 1 := by decide

/-- C8 (amended): `max_today` is the maximum per-player today-match count over
the registered players — every registered player's count is bounded by it and
it is attained by some registered player — but the `default=1` floor applies
only when NO player is registered: an empty roster yields 1, and a non-empty
roster with no matches yields 0. -/
theorem C8_max_today_behavior (st : DailyState) :
    (st.player_stats = [] → max_today st = 1) ∧
    (∀ kv ∈ st.player_stats, today_matches_count st kv.1 ≤ max_today st) ∧
    (st.player_stats ≠ [] →
      ∃ kv ∈ st.player_stats, max_today st = today_matches_count st kv.1) := by
  rcases hps : st.player_stats with _ | ⟨kv0, rest⟩
  · refine ⟨fun _ => ?_, ?_, fun hne => absurd rfl hne⟩
    · simp [max_today, hps]
    · intro kv hkv
      simp at hkv
  · have hmax : max_today st
        = (rest.map (fun kv => today_matches_count st kv.1)).foldl Nat.max
            (today_matches_count st kv0.1) := by
      simp [max_today, hps]
    refine ⟨fun hps0 => absurd hps0 (by simp), ?_, ?_⟩
    · intro kv hkv
      rw [hmax]
      apply le_foldl_max
      rcases List.mem_cons.mp hkv with rfl | hkv2
      · exact List.mem_cons_self _ _
      · exact List.mem_cons_of_mem _
          (List.mem_map.mpr ⟨kv, hkv2, rfl⟩)
    · intro _
      have hm := foldl_max_mem (rest.map (fun kv => today_matches_count st kv.1))
        (today_matches_count st kv0.1)
      rw [← hmax] at hm
      rcases List.mem_cons.mp hm with h | h
      · exact ⟨kv0, List.mem_cons_self _ _, h⟩
      · rcases List.mem_map.mp h with ⟨kv, hkv, hval⟩
        exact ⟨kv, List.mem_cons_of_mem _ hkv, hval.symm⟩

/-- Witness for C8 at the concrete example and empty-roster states. -/
theorem C8_max_today_behavior_witness :
    (∃ kv ∈ exampleState.player_stats,
      max_today exampleState = today_matches_count exampleState kv.1) ∧
    max_today emptyRosterState = 1 :=
  ⟨(C8_max_today_behavior exampleState).2.2 (by decide),
   (C8_max_today_behavior emptyRosterState).1 rfl⟩

/-- C9 counterexample: a whitespace-only name does not fail — `normalize_name`
returns the empty string (an empty PlayerKey). -/
theorem C9_empty_name_counterexample :
    normalize_name (pystr "   ") = pystr "" := by decide

/-- C9 (amended): `normalize_name` never fails: it returns the trimmed,
upper-cased string, which is empty exactly when the trimmed input is empty
(whitespace-only names yield the empty PlayerKey; the UI guards against
registering them); the function is idempotent. -/
theorem C9_normalize_behavior (s : PyStr) :
    normalize_name (normalize_name s) = normalize_name s ∧
    (normalize_name s = [] ↔ pyStrip s = []) := by
  refine ⟨normalize_name_idem s, ?_⟩
  unfold normalize_name pyUpper
  simp

theorem time_in_range_some_true {t s e : PyStr}
    (h : time_in_range t s e = some true) :
    ∃ v sv ev, parseHM t = some v ∧ parseHM s = some sv ∧
      parseHM e = some ev ∧ sv ≤ v ∧ v ≤ ev := by
  unfold time_in_range at h
  cases hpt : parseHM t with
  | none =>
    rw [hpt] at h
    simp at h
  | some v =>
    rw [hpt] at h
    cases hps : parseHM s with
    | none =>
      rw [hps] at h
      simp at h
    | some sv =>
      rw [hps] at h
      cases hpe : parseHM e with
      | none =>
        rw [hpe] at h
        simp at h
      | some ev =>
        rw [hpe] at h
        simp only [Option.bind_eq_bind, Option.some_bind, Option.pure_def,
          Option.some.injEq, decide_eq_true_eq] at h
        exact ⟨v, sv, ev, rfl, rfl, rfl, h.1, h.2⟩

theorem ranges_disjoint : ∀ r1 ∈ TIME_RANGES, ∀ r2 ∈ TIME_RANGES, r1 ≠ r2 →
    (parseHM r1.2).getD 0 < (parseHM r2.1).getD 0 ∨
    (parseHM r2.2).getD 0 < (parseHM r1.1).getD 0 := by decide

/-- C10: membership in a configured time window is inclusive at both
endpoints (a time equal to a window's start or end lies in that window), and
the five configured windows are pairwise disjoint: no clock time lies in two
distinct windows, so a match is counted in at most one histogram bucket. -/
theorem C10_time_windows :
    (∀ r ∈ TIME_RANGES, time_in_range r.1 r.1 r.2 = some true ∧
      time_in_range r.2 r.1 r.2 = some true) ∧
    (∀ t : PyStr, ∀ r1 ∈ TIME_RANGES, ∀ r2 ∈ TIME_RANGES, r1 ≠ r2 →
      ¬ (time_in_range t r1.1 r1.2 = some true ∧
         time_in_range t r2.1 r2.2 = some true)) := by
  constructor
  · decide
  · intro t r1 hr1 r2 hr2 hne h
    obtain ⟨h1, h2⟩ := h
    obtain ⟨v1, sv1, ev1, hv1, hs1, he1, hlo1, hhi1⟩ := time_in_range_some_true h1
    obtain ⟨v2, sv2, ev2, hv2, hs2, he2, hlo2, hhi2⟩ := time_in_range_some_true h2
    rw [hv1] at hv2
    injection hv2 with hveq
    subst hveq
    rcases ranges_disjoint r1 hr1 r2 hr2 hne with hd | hd
    · rw [he1, hs2] at hd
      simp only [Option.getD_some] at hd
      omega
    · rw [he2, hs1] at hd
      simp only [Option.getD_some] at hd
      omega

/-- Witness for C10: the first window's start lies in it, and 6:00 is not in
both of the first two windows. -/
theorem C10_time_windows_witness :
    time_in_range (pystr "5:31") (pystr "5:31") (pystr "6:30") = some true ∧
    ¬ (time_in_range (pystr "6:00") (pystr "5:31") (pystr "6:30") = some true ∧
       time_in_range (pystr "6:00") (pystr "6:31") (pystr "7:00") = some true) :=
  ⟨(C10_time_windows.1 (pystr "5:31", pystr "6:30") (by decide)).1,
   C10_time_windows.2 (pystr "6:00") (pystr "5:31", pystr "6:30") (by decide)
     (pystr "6:31", pystr "7:00") (by decide) (by decide)⟩

theorem dictContains_iff_memKeys (d : List (PyStr × α)) (k : PyStr) :
    dictContains d k = true ↔ k ∈ d.map Prod.fst := by
  induction d with
  | nil => simp [dictContains, dictGet]
  | cons kv rest ih =>
    obtain ⟨k', v'⟩ := kv
    by_cases hk : k' = k
    · subst hk
      simp [dictContains, dictGet]
    · simp only [dictContains, dictGet, if_neg hk, List.map_cons, List.mem_cons]
      rw [← dictContains]
      rw [ih]
      constructor
      · exact fun h => Or.inr h
      · rintro (h | h)
        · exact absurd h.symm hk
        · exact h

theorem at_most_one_range {t : PyStr} {r1 r2 : PyStr × PyStr}
    (hr1 : r1 ∈ TIME_RANGES) (hr2 : r2 ∈ TIME_RANGES) (hne : r1 ≠ r2)
    (h1 : time_in_range t r1.1 r1.2 = some true)
    (h2 : time_in_range t r2.1 r2.2 = some true) : False := by
  obtain ⟨v1, sv1, ev1, hv1, hs1, he1, hlo1, hhi1⟩ := time_in_range_some_true h1
  obtain ⟨v2, sv2, ev2, hv2, hs2, he2, hlo2, hhi2⟩ := time_in_range_some_true h2
  rw [hv1] at hv2
  injection hv2 with hveq
  subst hveq
  rcases ranges_disjoint r1 hr1 r2 hr2 hne with hd | hd
  · rw [he1, hs2] at hd
    simp only [Option.getD_some] at hd
    omega
  · rw [he2, hs1] at hd
    simp only [Option.getD_some] at hd
    omega

theorem keys_stepRange (m : MatchRecord) (acc2 : List (PyStr × List (PyStr × Nat)))
    (r : PyStr × PyStr) (h : rangeLabel r ∈ acc2.map Prod.fst) :
    (stepRange m acc2 r).map Prod.fst = acc2.map Prod.fst := by
  unfold stepRange
  split
  · rw [keys_dictSet, if_pos ((dictContains_iff_memKeys _ _).mpr h)]
  · rfl

theorem keys_foldl_stepRange (m : MatchRecord) :
    ∀ (rs : List (PyStr × PyStr)) (acc : List (PyStr × List (PyStr × Nat))),
    acc.map Prod.fst = TIME_RANGES.map rangeLabel →
    (∀ r ∈ rs, r ∈ TIME_RANGES) →
    (rs.foldl (stepRange m) acc).map Prod.fst = TIME_RANGES.map rangeLabel := by
  intro rs
  induction rs with
  | nil =>
    intro acc h _
    exact h
  | cons r rest ih =>
    intro acc h hsub
    simp only [List.foldl_cons]
    have hmem : rangeLabel r ∈ acc.map Prod.fst := by
      rw [h]
      exact List.mem_map.mpr ⟨r, hsub r (List.mem_cons_self _ _), rfl⟩
    apply ih
    · rw [keys_stepRange m acc r hmem]
      exact h
    · exact fun r2 hr2 => hsub r2 (List.mem_cons_of_mem _ hr2)

theorem keys_histInit : histInit.map Prod.fst = TIME_RANGES.map rangeLabel := by
  simp [histInit]

theorem keys_foldl_stepMatch :
    ∀ (ms : List MatchRecord) (acc : List (PyStr × List (PyStr × Nat))),
    acc.map Prod.fst = TIME_RANGES.map rangeLabel →
    ((ms.foldl stepMatch acc).map Prod.fst) = TIME_RANGES.map rangeLabel := by
  intro ms
  induction ms with
  | nil =>
    intro acc h
    exact h
  | cons m rest ih =>
    intro acc h
    simp only [List.foldl_cons]
    exact ih _ (keys_foldl_stepRange m TIME_RANGES acc h (fun r hr => hr))

theorem foldl_stepRange_no_trigger (m : MatchRecord) :
    ∀ (rs : List (PyStr × PyStr)) (acc : List (PyStr × List (PyStr × Nat))),
    (∀ r ∈ rs, time_in_range m.time r.1 r.2 ≠ some true) →
    rs.foldl (stepRange m) acc = acc := by
  intro rs
  induction rs with
  | nil =>
    intro acc _
    rfl
  | cons r rest ih =>
    intro acc h
    simp only [List.foldl_cons]
    rw [show stepRange m acc r = acc from
      if_neg (h r (List.mem_cons_self _ _))]
    exact ih acc (fun r2 hr2 => h r2 (List.mem_cons_of_mem _ hr2))

theorem foldl_stepRange_single (m : MatchRecord) (r₀ : PyStr × PyStr) :
    ∀ (rs : List (PyStr × PyStr)) (acc : List (PyStr × List (PyStr × Nat))),
    rs.Nodup → r₀ ∈ rs →
    (∀ r ∈ rs, r ≠ r₀ → time_in_range m.time r.1 r.2 ≠ some true) →
    rs.foldl (stepRange m) acc = stepRange m acc r₀ := by
  intro rs
  induction rs with
  | nil =>
    intro acc _ hmem _
    simp at hmem
  | cons r rest ih =>
    intro acc hnd hmem hothers
    obtain ⟨hnotin, hndrest⟩ := List.nodup_cons.mp hnd
    simp only [List.foldl_cons]
    rcases List.mem_cons.mp hmem with rfl | hmem2
    · rw [foldl_stepRange_no_trigger m rest _ ?_]
      intro r2 hr2
      apply hothers r2 (List.mem_cons_of_mem _ hr2)
      intro heq
      rw [heq] at hr2
      exact hnotin hr2
    · have hr_ne : r ≠ r₀ := by
        intro heq
        rw [heq] at hnotin
        exact hnotin hmem2
      rw [show stepRange m acc r = acc from
        if_neg (hothers r (List.mem_cons_self _ _) hr_ne)]
      exact ih acc hndrest hmem2
        (fun r2 hr2 => hothers r2 (List.mem_cons_of_mem _ hr2))

/-- A state with one match recorded at 10:30, outside all configured ranges. -/
def outOfRangeState : DailyState :=
  { date := pystr "2024-01-01",
    player_stats := [(pystr "ALICE", 1), (pystr "BOB", 1),
                     (pystr "CAROL", 1), (pystr "DAVE", 1)],
    name_map := [(pystr "ALICE", pystr "ALICE"), (pystr "BOB", pystr "BOB"),
                 (pystr "CAROL", pystr "CAROL"), (pystr "DAVE", pystr "DAVE")],
    matches' := [MatchRecord.mk 1
      [pystr "ALICE", pystr "BOB", pystr "CAROL", pystr "DAVE"]
      (pystr "10:30") (pystr "")] }

/-- C7 counterexample: the state holds one match (at 10:30, matching no
configured window), yet the histogram consists of exactly the five configured
buckets, all empty — the match is counted nowhere and no "Other" bucket
exists. -/
theorem C7_other_bucket_counterexample :
    outOfRangeState.matches'.length = 1 ∧
    stats_by_time_range outOfRangeState
      = TIME_RANGES.map (fun r => (rangeLabel r, [])) := by decide

/-- C7 (amended): the histogram's buckets are exactly the five configured
ranges (there is no "Other" bucket); a newly recorded match whose time lies
in no configured window leaves the whole histogram unchanged (it is silently
dropped from the view), while a match whose time lies in window `r₀`
increments that window's count by one for each of its players. -/
theorem C7_histogram_behavior :
    (∀ st : DailyState,
      (stats_by_time_range st).map Prod.fst = TIME_RANGES.map rangeLabel) ∧
    (∀ (st : DailyState) (players : List PyStr) (remark t : PyStr),
      (∀ r ∈ TIME_RANGES, time_in_range t r.1 r.2 ≠ some true) →
      stats_by_time_range (add_match st players remark t)
        = stats_by_time_range st) ∧
    (∀ (st : DailyState) (players : List PyStr) (remark t : PyStr)
      (r₀ : PyStr × PyStr), r₀ ∈ TIME_RANGES →
      time_in_range t r₀.1 r₀.2 = some true →
      (players.map normalize_name).Nodup →
      ∀ q ∈ players.map normalize_name,
        bucketCount (stats_by_time_range (add_match st players remark t))
            (rangeLabel r₀) q
          = bucketCount (stats_by_time_range st) (rangeLabel r₀) q + 1) := by
  refine ⟨?_, ?_, ?_⟩
  · intro st
    exact keys_foldl_stepMatch st.matches' histInit keys_histInit
  · intro st players remark t hno
    show ((st.matches' ++ [MatchRecord.mk (st.matches'.length + 1)
        (players.map normalize_name) t remark]).foldl stepMatch histInit) = _
    rw [List.foldl_append]
    simp only [List.foldl_cons, List.foldl_nil]
    exact foldl_stepRange_no_trigger _ TIME_RANGES _ hno
  · intro st players remark t r₀ hr₀ htr hpu q hq
    have hmatches : (add_match st players remark t).matches'
        = st.matches' ++ [MatchRecord.mk (st.matches'.length + 1)
            (players.map normalize_name) t remark] := rfl
    rw [stats_by_time_range, hmatches, List.foldl_append]
    simp only [List.foldl_cons, List.foldl_nil]
    rw [show (st.matches'.foldl stepMatch histInit) = stats_by_time_range st
      from rfl]
    have hsingle : stepMatch (stats_by_time_range st)
          (MatchRecord.mk (st.matches'.length + 1)
            (players.map normalize_name) t remark)
        = stepRange (MatchRecord.mk (st.matches'.length + 1)
            (players.map normalize_name) t remark)
            (stats_by_time_range st) r₀ :=
      foldl_stepRange_single _ r₀ TIME_RANGES _ (by decide) hr₀
        (fun r hr hne htrue => absurd (at_most_one_range hr hr₀ hne htrue htr) id)
    rw [hsingle, stepRange]
    rw [if_pos (show time_in_range (MatchRecord.mk (st.matches'.length + 1)
        (players.map normalize_name) t remark).time r₀.1 r₀.2 = some true
      from htr)]
    unfold bucketCount
    rw [dictGet_set_self]
    simp only [Option.getD_some]
    rw [foldl_incr_get _ _ hpu q, if_pos hq]
    simp

/-- Witness for C7: adding a 10:30 match to the example state leaves the
histogram unchanged; adding a 06:45 match bumps ALICE's count in the
6:31-7:00 bucket by one. -/
theorem C7_histogram_behavior_witness :
    stats_by_time_range (add_match exampleState examplePlayers
        (pystr "") (pystr "10:30"))
      = stats_by_time_range exampleState ∧
    bucketCount (stats_by_time_range (add_match exampleState examplePlayers
        (pystr "") (pystr "06:45")))
        (rangeLabel (pystr "6:31", pystr "7:00")) (pystr "ALICE")
      = bucketCount (stats_by_time_range exampleState)
        (rangeLabel (pystr "6:31", pystr "7:00")) (pystr "ALICE") + 1 :=
  ⟨C7_histogram_behavior.2.1 exampleState examplePlayers (pystr "")
      (pystr "10:30") (by decide),
   C7_histogram_behavior.2.2 exampleState examplePlayers (pystr "")
      (pystr "06:45") (pystr "6:31", pystr "7:00") (by decide) (by decide)
      (by decide) (pystr "ALICE") (by decide)⟩
